import Mathlib

/-!
# BulkOrder — slab pricing and offer aggregation, verified

Shallow embedding of the core of the BulkOrder group-buying app:
the slab-pricing lookup functions of the retailer catalog screen
(`src/frontend/app/index.tsx`), the admin slab editor
(`src/frontend/app/(admin)/catalog.tsx`), the admin fulfillment screen
(`src/frontend/app/(admin)/fulfillment.tsx`), and — modelled from the
spec, since the backend implementation is not in the repository snapshot —
the order-placement/aggregation service (spec §4.2–§4.3).

Quantities are integers (`Int`, the result of JS `parseInt`); prices are
decimal currency values, embedded as `ℚ`.
-/

namespace BulkOrder

/-- A quantity slab, `QuantitySlab` of `index.tsx`:
`{ min_qty: number; max_qty: number | null; price_per_unit: number }`.
`max_qty = none` means unbounded. -/
structure QuantitySlab where
  min_qty : Int
  max_qty : Option Int
  price_per_unit : ℚ
  deriving Repr, DecidableEq

/-- The match test of the lookup loops in `index.tsx`:
`qty >= slab.min_qty && (slab.max_qty === null || qty <= slab.max_qty)`. -/
def slabMatches (s : QuantitySlab) (qty : Int) : Bool :=
  decide (s.min_qty ≤ qty) &&
    (match s.max_qty with
     | none => true
     | some m => decide (qty ≤ m))

/-- The `for`-loop of `getCurrentPrice`/`getCurrentSlabIndex`: first slab
(with its price) satisfying the match test, scanning in list order. -/
def findMatch (qty : Int) : List QuantitySlab → Option QuantitySlab
  | [] => none
  | s :: rest => if slabMatches s qty then some s else findMatch qty rest

/-- Index of the first matching slab, mirroring the indexed loop of
`getCurrentSlabIndex`. -/
def findMatchIdx (qty : Int) : List QuantitySlab → Option Nat
  | [] => none
  | s :: rest =>
    if slabMatches s qty then some 0 else (findMatchIdx qty rest).map (· + 1)

/-- `getCurrentPrice` (`src/frontend/app/index.tsx:266-273`, also
`src/unnamed/part_003:129-136`): returns the first matching slab's
`price_per_unit`, else falls back to `slabs[0].price_per_unit`.
On an empty list the JS code throws (`slabs[0]` is `undefined`), embedded
as `none`. -/
def getCurrentPrice (slabs : List QuantitySlab) (qty : Int) : Option ℚ :=
  match findMatch qty slabs with
  | some s => some s.price_per_unit
  | none => slabs.head?.map (fun s => s.price_per_unit)

/-- `getCurrentSlabIndex` (`src/frontend/app/index.tsx:276-284`): index of
the first matching slab, else `0` (also `0` on the empty list, where the
JS loop body never runs). -/
def getCurrentSlabIndex (slabs : List QuantitySlab) (qty : Int) : Nat :=
  (findMatchIdx qty slabs).getD 0

/-- Result record of `getNextSlabInfo`. -/
structure NextSlabInfo where
  hasNextSlab : Bool
  nextPrice : Option ℚ
  qtyNeeded : Option Int
  savings : Option ℚ
  currentPrice : ℚ
  deriving Repr, DecidableEq

/-- `getNextSlabInfo` (`src/frontend/app/index.tsx:287-313`): looks up the
current slab index, reads `slabs[i].price_per_unit` (throws on the empty
list, embedded as `none`), and reports the next-slab incentive unless the
current slab is last (`i >= slabs.length - 1`, JS semantics kept with `Nat`
truncated subtraction) or has `max_qty === null`. -/
def getNextSlabInfo (slabs : List QuantitySlab) (currentQty : Int) :
    Option NextSlabInfo :=
  let i := getCurrentSlabIndex slabs currentQty
  match slabs.get? i with
  | none => none
  | some cur =>
    if slabs.length - 1 ≤ i ∨ cur.max_qty = none then
      some ⟨false, none, none, none, cur.price_per_unit⟩
    else
      match slabs.get? (i + 1) with
      | none => none
      | some nxt =>
        some ⟨true, some nxt.price_per_unit, some (nxt.min_qty - currentQty),
          some (cur.price_per_unit - nxt.price_per_unit), cur.price_per_unit⟩

/-- Well-formedness of a slab table per spec §3, as a chain: starting at
lower bound `lo`, each slab begins exactly at `lo`, a non-final slab has a
bounded range `[lo, m]` with `lo ≤ m` and the next slab resumes at `m + 1`,
and the final slab is unbounded (`max_qty = none`). -/
def contiguousFrom (lo : Int) : List QuantitySlab → Bool
  | [] => false
  | [s] => decide (s.min_qty = lo) && decide (s.max_qty = none)
  | s :: s' :: rest =>
    decide (s.min_qty = lo) &&
      (match s.max_qty with
       | none => false
       | some m => decide (lo ≤ m) && contiguousFrom (m + 1) (s' :: rest))

/-- A well-formed slab table (spec §3): contiguous non-overlapping ranges
covering every quantity from 1 upward, final slab unbounded. -/
def WellFormed (slabs : List QuantitySlab) : Bool :=
  contiguousFrom 1 slabs

/-- Slab prices non-increasing along the table (spec §9: the intended
business invariant, not part of the §3 range invariant). -/
def pricesNonIncreasing : List QuantitySlab → Bool
  | [] => true
  | [_] => true
  | s :: s' :: rest =>
    decide (s'.price_per_unit ≤ s.price_per_unit) &&
      pricesNonIncreasing (s' :: rest)

/-- Offer status enum (spec §3; status strings of the frontend).
`open_` embeds the source's `"open"` (a Lean keyword). -/
inductive OfferStatus where
  | open_
  | ready_to_pack
  | picked_up
  | out_for_delivery
  | delivered
  deriving Repr, DecidableEq

/-- The aggregation-relevant fields of an Offer (spec §3). -/
structure Offer where
  aggregated_qty : Int
  min_fulfillment_qty : Int
  status : OfferStatus
  slab_table : List QuantitySlab
  deriving Repr, DecidableEq

/-- Modelled from the spec: `OfferAggregator.applyOrder` (spec §4.2); the
backend implementation is not in the repository snapshot.
`new_aggregated_qty = offer.aggregated_qty + quantity`; if the offer is
`open` and the new total reaches `min_fulfillment_qty`, the status moves to
`ready_to_pack`; otherwise the status is unchanged. -/
def applyOrder (offer : Offer) (quantity : Int) : Offer :=
  let newAgg := offer.aggregated_qty + quantity
  if offer.status = OfferStatus.open_ ∧ offer.min_fulfillment_qty ≤ newAgg then
    { offer with aggregated_qty := newAgg, status := OfferStatus.ready_to_pack }
  else
    { offer with aggregated_qty := newAgg }

/-- A sequence of orders applied in arrival order. -/
def applyOrders (offer : Offer) (qs : List Int) : Offer :=
  qs.foldl applyOrder offer

/-- Error taxonomy of the order-placement service (spec §7). -/
inductive PlaceError where
  | OfferNotFound
  | InvalidQuantity
  | OfferNotOpenForOrders
  deriving Repr, DecidableEq

/-- Summary returned to the caller on a successful placement (spec §4.3). -/
structure PlaceResult where
  unit_price : ℚ
  total_amount : ℚ
  new_aggregated_qty : Int
  offer_status : OfferStatus
  deriving Repr, DecidableEq

/-- Modelled from the spec: `OrderPlacementService.placeOrder` (spec §4.3);
the backend implementation is not in the repository snapshot. Validates
`quantity > 0` and that the offer accepts orders (`open` or
`ready_to_pack`, current behavior per §4.3), resolves the unit price via
the pricing lookup at the *prospective* aggregated quantity
(current + requested), applies the order to the offer, and returns the
updated offer with the price/status summary. An error leaves the offer
unchanged (no partial state on failure, §4.3/§7). -/
def placeOrder (offer : Offer) (quantity : Int) :
    Except PlaceError (Offer × PlaceResult) :=
  if quantity ≤ 0 then
    Except.error PlaceError.InvalidQuantity
  else if offer.status ≠ OfferStatus.open_ ∧
      offer.status ≠ OfferStatus.ready_to_pack then
    Except.error PlaceError.OfferNotOpenForOrders
  else
    let prospective := offer.aggregated_qty + quantity
    match getCurrentPrice offer.slab_table prospective with
    | none => Except.error PlaceError.InvalidQuantity
    | some p =>
      let updated := applyOrder offer quantity
      Except.ok (updated,
        { unit_price := p
          total_amount := p * (quantity : ℚ)
          new_aggregated_qty := updated.aggregated_qty
          offer_status := updated.status })

/-- The quantity guard of `handleAddToOrder`
(`src/frontend/app/index.tsx:328-334`, also `src/unnamed/part_003:146-152`):
`const qty = parseInt(orderQuantity); if (!qty || qty <= 0) { reject }`.
The argument is the result of `parseInt` (`none` = `NaN`); `!qty` is JS
falsiness, true for `NaN` and `0`. Returns `true` iff the client proceeds
to call `api.createOrder`. -/
def handleAddToOrderProceeds (parsedQty : Option Int) : Bool :=
  match parsedQty with
  | none => false
  | some q => !(decide (q = 0) || decide (q ≤ 0))

/-- The client-side price preview of the offer modal
(`src/frontend/app/index.tsx:904-914`): shown price is
`getCurrentPrice(selectedOffer.quantity_slabs, parseInt(orderQuantity))`,
computed from the retailer's own quantity alone. -/
def pricePreview (slabs : List QuantitySlab) (orderQuantity : Int) : Option ℚ :=
  getCurrentPrice slabs orderQuantity

/-- The admin fulfillment screen's status buttons
(`src/frontend/app/(admin)/fulfillment.tsx:245-273`): exactly one button is
rendered per status, and it invokes `updateStatus` with the pipeline
successor — `ready_to_pack ↦ picked_up`, `picked_up ↦ out_for_delivery`,
`out_for_delivery ↦ delivered`; no button otherwise. -/
def fulfillmentStatusButton : OfferStatus → Option OfferStatus
  | OfferStatus.ready_to_pack => some OfferStatus.picked_up
  | OfferStatus.picked_up => some OfferStatus.out_for_delivery
  | OfferStatus.out_for_delivery => some OfferStatus.delivered
  | _ => none

/-- Position of a status along the lifecycle pipeline (spec §3):
open → ready_to_pack → picked_up → out_for_delivery → delivered. -/
def pipelineIndex : OfferStatus → Nat
  | OfferStatus.open_ => 0
  | OfferStatus.ready_to_pack => 1
  | OfferStatus.picked_up => 2
  | OfferStatus.out_for_delivery => 3
  | OfferStatus.delivered => 4

/-- `addSlab` of the admin slab editor
(`src/frontend/app/(admin)/catalog.tsx:185-192`, also
`src/unnamed/part_002:337-344`): appends
`{ min_qty: (lastSlab.max_qty || lastSlab.min_qty) + 1, max_qty: null,
price_per_unit: lastSlab.price_per_unit - 10 }`. JS `||` takes
`lastSlab.min_qty` when `max_qty` is `null` *or* `0` (both falsy). On an
empty list the JS code throws (`slabs[-1]` is `undefined`), embedded as
`none`. -/
def addSlab (slabs : List QuantitySlab) : Option (List QuantitySlab) :=
  (slabs.getLast?).map (fun lastSlab =>
    slabs ++ [{ min_qty :=
                  (match lastSlab.max_qty with
                   | some m => if m = 0 then lastSlab.min_qty else m
                   | none => lastSlab.min_qty) + 1
                max_qty := none
                price_per_unit := lastSlab.price_per_unit - 10 }])

/-- A contiguous chain of *bounded* slabs starting at `lo`: the shape of a
slab table still under construction in the admin editor, every slab with a
non-null `max_qty`. -/
def boundedChainFrom (lo : Int) : List QuantitySlab → Bool
  | [] => true
  | s :: rest =>
    decide (s.min_qty = lo) &&
      (match s.max_qty with
       | none => false
       | some m => decide (lo ≤ m) && boundedChainFrom (m + 1) rest)

/-- The spec §8 scenario slab table, also the default table of the admin
slab editor (`catalog.tsx`): [(1,10,100),(11,50,90),(51,∞,80)]. -/
def demoSlabs : List QuantitySlab :=
  [⟨1, some 10, 100⟩, ⟨11, some 50, 90⟩, ⟨51, none, 80⟩]

/-- A range-well-formed table with *rising* prices: the §3 invariant
constrains only the ranges, so this table is well-formed. -/
def risingSlabs : List QuantitySlab :=
  [⟨1, some 10, 100⟩, ⟨11, none, 200⟩]

/-- A slab list whose last slab has the non-null `max_qty` 0 — falsy in
JS, so `addSlab` reads `min_qty` instead of `max_qty`. -/
def zeroMaxSlabs : List QuantitySlab :=
  [⟨1, some 0, 100⟩]

/-- The spec §8 scenario offer after the first 15-unit order:
aggregated_qty 15, threshold 50, still open. -/
def scenarioOffer : Offer :=
  { aggregated_qty := 15
    min_fulfillment_qty := 50
    status := OfferStatus.open_
    slab_table := demoSlabs }

end BulkOrder

namespace BulkOrder

/-! ## Helper lemmas on the lookup loop and the well-formedness chain -/

theorem findMatch_cons_true {q : Int} {a : QuantitySlab} {l : List QuantitySlab}
    (h : slabMatches a q = true) : findMatch q (a :: l) = some a := by
  simp [findMatch, h]

theorem findMatch_cons_false {q : Int} {a : QuantitySlab} {l : List QuantitySlab}
    (h : slabMatches a q = false) : findMatch q (a :: l) = findMatch q l := by
  simp [findMatch, h]

theorem findMatch_mem {q : Int} {l : List QuantitySlab} {s : QuantitySlab}
    (h : findMatch q l = some s) : s ∈ l ∧ slabMatches s q = true := by
  induction l with
  | nil => simp [findMatch] at h
  | cons a t ih =>
    cases hsm : slabMatches a q with
    | true =>
      simp [findMatch, hsm] at h
      subst h
      exact ⟨List.mem_cons_self a t, hsm⟩
    | false =>
      simp [findMatch, hsm] at h
      obtain ⟨hmem, hma⟩ := ih h
      exact ⟨List.mem_cons_of_mem a hmem, hma⟩

theorem findMatch_eq_none {q : Int} {l : List QuantitySlab} :
    findMatch q l = none ↔ ∀ s ∈ l, slabMatches s q = false := by
  induction l with
  | nil => simp [findMatch]
  | cons a t ih =>
    cases hsm : slabMatches a q with
    | true => simp [findMatch, hsm]
    | false => simp [findMatch, hsm, ih]

theorem contiguousFrom_min_le {lo : Int} {l : List QuantitySlab}
    (hc : contiguousFrom lo l = true) : ∀ s ∈ l, lo ≤ s.min_qty := by
  induction l generalizing lo with
  | nil => simp
  | cons a t ih =>
    intro s hs
    cases t with
    | nil =>
      simp [contiguousFrom] at hc
      simp at hs
      subst hs
      omega
    | cons b t' =>
      cases hmax : a.max_qty with
      | none => simp [contiguousFrom, hmax] at hc
      | some m =>
        simp [contiguousFrom, hmax] at hc
        obtain ⟨hmin, hlom, hchain⟩ := hc
        rcases List.mem_cons.mp hs with hsa | hst
        · subst hsa
          omega
        · have := ih hchain s hst
          omega

theorem contiguousFrom_findMatch {lo q : Int} {l : List QuantitySlab}
    (hc : contiguousFrom lo l = true) (hq : lo ≤ q) :
    ∃ s, findMatch q l = some s ∧ slabMatches s q = true := by
  induction l generalizing lo with
  | nil => simp [contiguousFrom] at hc
  | cons a t ih =>
    cases t with
    | nil =>
      simp [contiguousFrom] at hc
      have hma : slabMatches a q = true := by
        simp [slabMatches, hc.1, hc.2]
        omega
      exact ⟨a, by simp [findMatch, hma], hma⟩
    | cons b t' =>
      cases hmax : a.max_qty with
      | none => simp [contiguousFrom, hmax] at hc
      | some m =>
        simp [contiguousFrom, hmax] at hc
        obtain ⟨hmin, hlom, hchain⟩ := hc
        by_cases hqm : q ≤ m
        · have hma : slabMatches a q = true := by
            simp [slabMatches, hmax, hmin]
            omega
          exact ⟨a, by simp [findMatch, hma], hma⟩
        · have hma : slabMatches a q = false := by
            simp [slabMatches, hmax]
            omega
          obtain ⟨s, hfind, hms⟩ := ih hchain (by omega)
          exact ⟨s, by rw [findMatch_cons_false hma, hfind], hms⟩

theorem contiguousFrom_match_unique {lo q : Int} {l : List QuantitySlab}
    {s : QuantitySlab} (hc : contiguousFrom lo l = true) (hs : s ∈ l)
    (hm : slabMatches s q = true) : findMatch q l = some s := by
  induction l generalizing lo with
  | nil => simp at hs
  | cons a t ih =>
    cases t with
    | nil =>
      simp at hs
      subst hs
      simp [findMatch, hm]
    | cons b t' =>
      cases hmax : a.max_qty with
      | none => simp [contiguousFrom, hmax] at hc
      | some m =>
        simp [contiguousFrom, hmax] at hc
        obtain ⟨hmin, hlom, hchain⟩ := hc
        rcases List.mem_cons.mp hs with hsa | hst
        · subst hsa
          simp [findMatch, hm]
        · have hsmin : m + 1 ≤ s.min_qty := contiguousFrom_min_le hchain s hst
          have hsq : s.min_qty ≤ q := by
            simp [slabMatches] at hm
            exact hm.1
          have hma : slabMatches a q = false := by
            simp [slabMatches, hmax]
            omega
          rw [findMatch_cons_false hma]
          exact ih hchain hst

/-! ## C1 -/

/-- C1: for every well-formed slab table and quantity q ≥ 1,
`getCurrentPrice` returns the unit price of the unique slab whose range
contains q (`min_qty ≤ q` and `max_qty` null or `q ≤ max_qty`). -/
theorem getCurrentPrice_unique_slab (slabs : List QuantitySlab) (q : Int)
    (hwf : WellFormed slabs = true) (hq : 1 ≤ q) :
    ∃ s, s ∈ slabs ∧ slabMatches s q = true ∧
      getCurrentPrice slabs q = some s.price_per_unit ∧
      ∀ t ∈ slabs, slabMatches t q = true → t = s := by
  obtain ⟨s, hfind, hms⟩ := contiguousFrom_findMatch hwf hq
  obtain ⟨hmem, _⟩ := findMatch_mem hfind
  refine ⟨s, hmem, hms, ?_, ?_⟩
  · simp [getCurrentPrice, hfind]
  · intro t ht hmt
    have := contiguousFrom_match_unique hwf ht hmt
    rw [this] at hfind
    exact Option.some.inj hfind

/-- Witness for C1 at the spec §8 scenario table and q = 15. -/
theorem getCurrentPrice_unique_slab_witness :
    ∃ s, s ∈ demoSlabs ∧ slabMatches s 15 = true ∧
      getCurrentPrice demoSlabs 15 = some s.price_per_unit ∧
      ∀ t ∈ demoSlabs, slabMatches t 15 = true → t = s :=
  getCurrentPrice_unique_slab demoSlabs 15 (by decide) (by decide)

/-! ## C4 -/

/-- C4: on a non-empty table, the price lookup never fails; when no slab
matches the quantity it falls back to the *first* slab's price
(`slabs[0].price_per_unit`), and in particular on a well-formed table any
quantity q < 1 gets the first slab's price rather than an error. -/
theorem getCurrentPrice_fallback (slabs : List QuantitySlab) (q : Int)
    (a : QuantitySlab) (rest : List QuantitySlab) (hne : slabs = a :: rest) :
    (∃ p, getCurrentPrice slabs q = some p) ∧
      ((∀ s ∈ slabs, slabMatches s q = false) →
        getCurrentPrice slabs q = some a.price_per_unit) ∧
      (WellFormed slabs = true → q < 1 →
        getCurrentPrice slabs q = some a.price_per_unit) := by
  subst hne
  have hfb : (∀ s ∈ a :: rest, slabMatches s q = false) →
      getCurrentPrice (a :: rest) q = some a.price_per_unit := by
    intro hall
    have hnone : findMatch q (a :: rest) = none := findMatch_eq_none.mpr hall
    simp [getCurrentPrice, hnone]
  refine ⟨?_, hfb, ?_⟩
  · cases hf : findMatch q (a :: rest) with
    | some s => exact ⟨s.price_per_unit, by simp [getCurrentPrice, hf]⟩
    | none => exact ⟨a.price_per_unit, by simp [getCurrentPrice, hf]⟩
  · intro hwf hq
    apply hfb
    intro s hs
    have h1 : (1 : Int) ≤ s.min_qty := contiguousFrom_min_le hwf s hs
    cases hsm : slabMatches s q with
    | false => rfl
    | true =>
      simp [slabMatches] at hsm
      obtain ⟨hle, _⟩ := hsm
      omega

/-- Witness for C4 at the scenario table and the out-of-range quantity
q = 0 (parseable but below every slab). -/
theorem getCurrentPrice_fallback_witness :
    (∃ p, getCurrentPrice demoSlabs 0 = some p) ∧
      ((∀ s ∈ demoSlabs, slabMatches s 0 = false) →
        getCurrentPrice demoSlabs 0 = some (100 : ℚ)) ∧
      (WellFormed demoSlabs = true → (0 : Int) < 1 →
        getCurrentPrice demoSlabs 0 = some (100 : ℚ)) :=
  getCurrentPrice_fallback demoSlabs 0 ⟨1, some 10, 100⟩
    [⟨11, some 50, 90⟩, ⟨51, none, 80⟩] rfl

/-! ## C9 -/

theorem findMatchIdx_spec (q : Int) (l : List QuantitySlab) :
    (findMatchIdx q l = none ∧ findMatch q l = none) ∨
      (∃ i s, findMatchIdx q l = some i ∧ l.get? i = some s ∧
        findMatch q l = some s) := by
  induction l with
  | nil => exact Or.inl ⟨rfl, rfl⟩
  | cons a t ih =>
    cases hsm : slabMatches a q with
    | true =>
      refine Or.inr ⟨0, a, ?_, rfl, findMatch_cons_true hsm⟩
      simp [findMatchIdx, hsm]
    | false =>
      rcases ih with ⟨hidx, hfind⟩ | ⟨i, s, hidx, hget, hfind⟩
      · refine Or.inl ⟨?_, ?_⟩
        · simp [findMatchIdx, hsm, hidx]
        · rw [findMatch_cons_false hsm, hfind]
      · refine Or.inr ⟨i + 1, s, ?_, by simpa using hget, ?_⟩
        · simp [findMatchIdx, hsm, hidx]
        · rw [findMatch_cons_false hsm, hfind]

/-- C9: on every non-empty slab list and every quantity, `getCurrentPrice`
and `getCurrentSlabIndex` agree: the returned price is the
`price_per_unit` of the slab at the returned index — both fall back to
index 0 / the first slab's price when nothing matches. -/
theorem getCurrentPrice_eq_indexed_price (slabs : List QuantitySlab)
    (q : Int) (a : QuantitySlab) (rest : List QuantitySlab)
    (hne : slabs = a :: rest) :
    ∃ s, slabs.get? (getCurrentSlabIndex slabs q) = some s ∧
      getCurrentPrice slabs q = some s.price_per_unit := by
  subst hne
  rcases findMatchIdx_spec q (a :: rest) with ⟨hidx, hfind⟩ |
    ⟨i, s, hidx, hget, hfind⟩
  · exact ⟨a, by simp [getCurrentSlabIndex, hidx], by simp [getCurrentPrice, hfind]⟩
  · refine ⟨s, ?_, by simp [getCurrentPrice, hfind]⟩
    simp only [getCurrentSlabIndex, hidx, Option.getD_some]
    exact hget

/-- Witness for C9 at the scenario table and q = 200 (deep slab). -/
theorem getCurrentPrice_eq_indexed_price_witness :
    ∃ s, demoSlabs.get? (getCurrentSlabIndex demoSlabs 200) = some s ∧
      getCurrentPrice demoSlabs 200 = some s.price_per_unit :=
  getCurrentPrice_eq_indexed_price demoSlabs 200 ⟨1, some 10, 100⟩
    [⟨11, some 50, 90⟩, ⟨51, none, 80⟩] rfl

/-! ## C3 -/

theorem chain_findMatch_price_le_head {lo q : Int} {a : QuantitySlab}
    {t : List QuantitySlab} {s : QuantitySlab}
    (hc : contiguousFrom lo (a :: t) = true)
    (hp : pricesNonIncreasing (a :: t) = true) (hq : lo ≤ q)
    (hfind : findMatch q (a :: t) = some s) :
    s.price_per_unit ≤ a.price_per_unit := by
  induction t generalizing lo a with
  | nil =>
    obtain ⟨hmem, _⟩ := findMatch_mem hfind
    simp at hmem
    subst hmem
    exact le_refl _
  | cons b t' ih =>
    cases hmax : a.max_qty with
    | none => simp [contiguousFrom, hmax] at hc
    | some m =>
      simp [contiguousFrom, hmax] at hc
      obtain ⟨hmin, hlom, hchain⟩ := hc
      simp [pricesNonIncreasing] at hp
      obtain ⟨hba, hptail⟩ := hp
      by_cases hqm : q ≤ m
      · have hma : slabMatches a q = true := by
          simp [slabMatches, hmax, hmin]
          omega
        rw [findMatch_cons_true hma] at hfind
        obtain rfl := Option.some.inj hfind
        exact le_refl _
      · have hma : slabMatches a q = false := by
          simp [slabMatches, hmax]
          omega
        rw [findMatch_cons_false hma] at hfind
        have := ih hchain hptail (by omega) hfind
        exact le_trans this hba

theorem chain_findMatch_antitone {lo q1 q2 : Int} {l : List QuantitySlab}
    {s1 s2 : QuantitySlab} (hc : contiguousFrom lo l = true)
    (hp : pricesNonIncreasing l = true) (h1 : lo ≤ q1) (h12 : q1 ≤ q2)
    (hf1 : findMatch q1 l = some s1) (hf2 : findMatch q2 l = some s2) :
    s2.price_per_unit ≤ s1.price_per_unit := by
  induction l generalizing lo with
  | nil => simp [findMatch] at hf1
  | cons a t ih =>
    cases t with
    | nil =>
      obtain ⟨hm1, _⟩ := findMatch_mem hf1
      obtain ⟨hm2, _⟩ := findMatch_mem hf2
      simp at hm1 hm2
      subst hm1
      subst hm2
      exact le_refl _
    | cons b t' =>
      cases hmax : a.max_qty with
      | none => simp [contiguousFrom, hmax] at hc
      | some m =>
        simp [contiguousFrom, hmax] at hc
        obtain ⟨hmin, hlom, hchain⟩ := hc
        simp [pricesNonIncreasing] at hp
        obtain ⟨hba, hptail⟩ := hp
        by_cases hq2m : q2 ≤ m
        · have hma1 : slabMatches a q1 = true := by
            simp [slabMatches, hmax, hmin]
            omega
          have hma2 : slabMatches a q2 = true := by
            simp [slabMatches, hmax, hmin]
            omega
          rw [findMatch_cons_true hma1] at hf1
          rw [findMatch_cons_true hma2] at hf2
          obtain rfl := Option.some.inj hf1
          obtain rfl := Option.some.inj hf2
          exact le_refl _
        · by_cases hq1m : q1 ≤ m
          · have hma1 : slabMatches a q1 = true := by
              simp [slabMatches, hmax, hmin]
              omega
            have hma2 : slabMatches a q2 = false := by
              simp [slabMatches, hmax]
              omega
            rw [findMatch_cons_true hma1] at hf1
            obtain rfl := Option.some.inj hf1
            rw [findMatch_cons_false hma2] at hf2
            have := chain_findMatch_price_le_head hchain hptail (by omega) hf2
            exact le_trans this hba
          · have hma1 : slabMatches a q1 = false := by
              simp [slabMatches, hmax]
              omega
            have hma2 : slabMatches a q2 = false := by
              simp [slabMatches, hmax]
              omega
            rw [findMatch_cons_false hma1] at hf1
            rw [findMatch_cons_false hma2] at hf2
            exact ih hchain hptail (by omega) hf1 hf2

/-- C3 counterexample: `risingSlabs` satisfies the §3 well-formedness
invariant (which constrains ranges only), yet the looked-up price rises
from 100 at q = 5 to 200 at q = 20, so the claim as stated — price
non-increasing for *every* well-formed table — is false. -/
theorem getCurrentPrice_antitone_counterexample :
    WellFormed risingSlabs = true ∧ (1 : Int) ≤ 5 ∧ (5 : Int) ≤ 20 ∧
      getCurrentPrice risingSlabs 5 = some 100 ∧
      getCurrentPrice risingSlabs 20 = some 200 ∧
      ¬((200 : ℚ) ≤ 100) := by
  refine ⟨by decide, by decide, by decide, by decide, by decide, by norm_num⟩

/-- C3 (amended): for every well-formed slab table whose slab prices are
non-increasing along the table (spec §9: the intended business invariant),
the looked-up unit price is non-increasing in the quantity. -/
theorem getCurrentPrice_antitone (slabs : List QuantitySlab) (q1 q2 : Int)
    (hwf : WellFormed slabs = true)
    (hpr : pricesNonIncreasing slabs = true)
    (h1 : 1 ≤ q1) (h12 : q1 ≤ q2) :
    ∃ p1 p2, getCurrentPrice slabs q1 = some p1 ∧
      getCurrentPrice slabs q2 = some p2 ∧ p2 ≤ p1 := by
  obtain ⟨s1, hf1, _⟩ := contiguousFrom_findMatch hwf h1
  obtain ⟨s2, hf2, _⟩ := contiguousFrom_findMatch hwf (by omega : (1 : Int) ≤ q2)
  refine ⟨s1.price_per_unit, s2.price_per_unit, by simp [getCurrentPrice, hf1],
    by simp [getCurrentPrice, hf2], ?_⟩
  exact chain_findMatch_antitone hwf hpr h1 h12 hf1 hf2

/-- Witness for the amended C3 at the scenario table, q1 = 5 ≤ q2 = 60. -/
theorem getCurrentPrice_antitone_witness :
    ∃ p1 p2, getCurrentPrice demoSlabs 5 = some p1 ∧
      getCurrentPrice demoSlabs 60 = some p2 ∧ p2 ≤ p1 :=
  getCurrentPrice_antitone demoSlabs 5 60 (by decide) (by decide)
    (by decide) (by decide)

/-! ## C5 -/

theorem findMatchIdx_cons_false {q : Int} {a : QuantitySlab}
    {l : List QuantitySlab} (h : slabMatches a q = false) :
    findMatchIdx q (a :: l) = (findMatchIdx q l).map (· + 1) := by
  simp [findMatchIdx, h]

theorem contiguousFrom_head_min {lo : Int} {a : QuantitySlab}
    {t : List QuantitySlab} (hc : contiguousFrom lo (a :: t) = true) :
    a.min_qty = lo := by
  cases t with
  | nil => simp [contiguousFrom] at hc; exact hc.1
  | cons b t' =>
    cases hmax : a.max_qty with
    | none => simp [contiguousFrom, hmax] at hc
    | some m => simp [contiguousFrom, hmax] at hc; exact hc.1

theorem contiguousFrom_findMatchIdx {lo q : Int} {l : List QuantitySlab}
    (hc : contiguousFrom lo l = true) (hq : lo ≤ q) :
    ∃ i s, findMatchIdx q l = some i ∧ l.get? i = some s ∧
      slabMatches s q = true ∧
      (s.max_qty = none → i = l.length - 1) ∧
      (∀ m, s.max_qty = some m → i + 1 < l.length ∧
        ∃ nxt, l.get? (i + 1) = some nxt ∧ nxt.min_qty = m + 1) := by
  induction l generalizing lo with
  | nil => simp [contiguousFrom] at hc
  | cons a t ih =>
    cases t with
    | nil =>
      simp [contiguousFrom] at hc
      have hma : slabMatches a q = true := by
        simp [slabMatches, hc.1, hc.2]
        omega
      refine ⟨0, a, by simp [findMatchIdx, hma], rfl, hma, by simp, ?_⟩
      intro m hm
      rw [hc.2] at hm
      cases hm
    | cons b t' =>
      cases hmax : a.max_qty with
      | none => simp [contiguousFrom, hmax] at hc
      | some m =>
        simp [contiguousFrom, hmax] at hc
        obtain ⟨hmin, hlom, hchain⟩ := hc
        by_cases hqm : q ≤ m
        · have hma : slabMatches a q = true := by
            simp [slabMatches, hmax, hmin]
            omega
          refine ⟨0, a, by simp [findMatchIdx, hma], rfl, hma, ?_, ?_⟩
          · intro h
            rw [hmax] at h
            cases h
          · intro m' hm'
            rw [hmax] at hm'
            obtain rfl := Option.some.inj hm'
            refine ⟨by simp, b, rfl, ?_⟩
            exact contiguousFrom_head_min hchain
        · have hma : slabMatches a q = false := by
            simp [slabMatches, hmax]
            omega
          obtain ⟨i, s, hidx, hget, hms, hnone, hsome⟩ :=
            ih hchain (by omega : m + 1 ≤ q)
          refine ⟨i + 1, s, ?_, by simpa using hget, hms, ?_, ?_⟩
          · rw [findMatchIdx_cons_false hma, hidx]
            rfl
          · intro h
            have := hnone h
            simp only [List.length_cons]
            simp only [List.length_cons] at this
            omega
          · intro m' hm'
            obtain ⟨hlt, nxt, hget', hmin'⟩ := hsome m' hm'
            refine ⟨by simpa using Nat.succ_lt_succ hlt, nxt, by simpa using hget', hmin'⟩

/-- C5: for every well-formed slab table and quantity q ≥ 1,
`getNextSlabInfo` reports `hasNextSlab = false` exactly when q falls in
the last slab (the `max_qty = null` one, at index `length - 1`);
otherwise it reports `hasNextSlab = true` with
`qtyNeeded = nextSlab.min_qty - q` and
`savings = currentPrice - nextSlab.price_per_unit`, where `nextSlab` is
the slab after the one containing q. -/
theorem getNextSlabInfo_spec (slabs : List QuantitySlab) (q : Int)
    (hwf : WellFormed slabs = true) (hq : 1 ≤ q) :
    ∃ i cur, getCurrentSlabIndex slabs q = i ∧ slabs.get? i = some cur ∧
      slabMatches cur q = true ∧
      (cur.max_qty = none → i = slabs.length - 1 ∧
        getNextSlabInfo slabs q =
          some ⟨false, none, none, none, cur.price_per_unit⟩) ∧
      (∀ m, cur.max_qty = some m → i + 1 < slabs.length ∧
        ∃ nxt, slabs.get? (i + 1) = some nxt ∧ nxt.min_qty = m + 1 ∧
          getNextSlabInfo slabs q =
            some ⟨true, some nxt.price_per_unit, some (nxt.min_qty - q),
              some (cur.price_per_unit - nxt.price_per_unit),
              cur.price_per_unit⟩) := by
  obtain ⟨i, cur, hidx, hget, hms, hnone, hsome⟩ :=
    contiguousFrom_findMatchIdx hwf hq
  have hidx0 : getCurrentSlabIndex slabs q = i := by
    simp [getCurrentSlabIndex, hidx]
  refine ⟨i, cur, hidx0, hget, hms, ?_, ?_⟩
  · intro hmax
    refine ⟨hnone hmax, ?_⟩
    simp only [getNextSlabInfo, hidx0, hget, hmax]
    simp
  · intro m hmax
    obtain ⟨hlt, nxt, hget', hmin'⟩ := hsome m hmax
    refine ⟨hlt, nxt, hget', hmin', ?_⟩
    have hcond : ¬(slabs.length - 1 ≤ i) := by omega
    simp only [getNextSlabInfo, hidx0, hget, hmax, hget']
    simp [hcond]

/-- Witness for C5 at the scenario table and q = 20 (middle slab). -/
theorem getNextSlabInfo_spec_witness :
    ∃ i cur, getCurrentSlabIndex demoSlabs 20 = i ∧
      demoSlabs.get? i = some cur ∧ slabMatches cur 20 = true ∧
      (cur.max_qty = none → i = demoSlabs.length - 1 ∧
        getNextSlabInfo demoSlabs 20 =
          some ⟨false, none, none, none, cur.price_per_unit⟩) ∧
      (∀ m, cur.max_qty = some m → i + 1 < demoSlabs.length ∧
        ∃ nxt, demoSlabs.get? (i + 1) = some nxt ∧ nxt.min_qty = m + 1 ∧
          getNextSlabInfo demoSlabs 20 =
            some ⟨true, some nxt.price_per_unit, some (nxt.min_qty - 20),
              some (cur.price_per_unit - nxt.price_per_unit),
              cur.price_per_unit⟩) :=
  getNextSlabInfo_spec demoSlabs 20 (by decide) (by decide)

/-! ## C2 -/

theorem applyOrder_open_cross {o : Offer} {q : Int}
    (ho : o.status = OfferStatus.open_)
    (hc : o.min_fulfillment_qty ≤ o.aggregated_qty + q) :
    applyOrder o q = { o with aggregated_qty := o.aggregated_qty + q,
                              status := OfferStatus.ready_to_pack } := by
  unfold applyOrder
  rw [if_pos ⟨ho, hc⟩]

theorem applyOrder_open_nocross {o : Offer} {q : Int}
    (hc : ¬ o.min_fulfillment_qty ≤ o.aggregated_qty + q) :
    applyOrder o q = { o with aggregated_qty := o.aggregated_qty + q } := by
  unfold applyOrder
  rw [if_neg]
  intro h
  exact hc h.2

theorem applyOrder_status_not_open {o : Offer} (q : Int)
    (h : o.status ≠ OfferStatus.open_) :
    applyOrder o q = { o with aggregated_qty := o.aggregated_qty + q } := by
  unfold applyOrder
  rw [if_neg]
  intro hcond
  exact h hcond.1

theorem applyOrders_status_not_open {o : Offer} {qs : List Int}
    (h : o.status ≠ OfferStatus.open_) :
    (applyOrders o qs).status = o.status ∧
      (applyOrders o qs).aggregated_qty = o.aggregated_qty + qs.sum := by
  induction qs generalizing o with
  | nil => simp [applyOrders]
  | cons q qs' ih =>
    have hstep := @applyOrder_status_not_open o q h
    have h' : (applyOrder o q).status ≠ OfferStatus.open_ := by
      rw [hstep]
      exact h
    have hrec := ih h'
    constructor
    · rw [applyOrders, List.foldl_cons, ← applyOrders, hrec.1, hstep]
    · rw [applyOrders, List.foldl_cons, ← applyOrders, hrec.2, hstep]
      simp
      omega

/-- C2: starting from an open offer below its threshold, applying a
sequence of positive orders accumulates `aggregated_qty` exactly, the
status is `ready_to_pack` precisely when the running total has reached
`min_fulfillment_qty` (so the transition fires on the first crossing
order), and it is `open` precisely when the total is still below the
threshold — the transition never reverts. -/
theorem applyOrders_threshold_once (offer : Offer) (qs : List Int)
    (hopen : offer.status = OfferStatus.open_)
    (hlt : offer.aggregated_qty < offer.min_fulfillment_qty)
    (hpos : ∀ q ∈ qs, 0 < q) :
    (applyOrders offer qs).aggregated_qty = offer.aggregated_qty + qs.sum ∧
      ((applyOrders offer qs).status = OfferStatus.ready_to_pack ↔
        offer.min_fulfillment_qty ≤ offer.aggregated_qty + qs.sum) ∧
      ((applyOrders offer qs).status = OfferStatus.open_ ↔
        offer.aggregated_qty + qs.sum < offer.min_fulfillment_qty) := by
  induction qs generalizing offer with
  | nil =>
    refine ⟨by simp [applyOrders], ?_, ?_⟩
    · simp [applyOrders, hopen]
      omega
    · simp [applyOrders, hopen]
      omega
  | cons q qs' ih =>
    have hsum : (q :: qs').sum = q + qs'.sum := List.sum_cons
    have hsum' : (0 : Int) ≤ qs'.sum := by
      apply List.sum_nonneg
      intro x hx
      exact le_of_lt (hpos x (List.mem_cons_of_mem q hx))
    by_cases hc : offer.min_fulfillment_qty ≤ offer.aggregated_qty + q
    · have hstep := applyOrder_open_cross hopen hc
      have hns : (applyOrder offer q).status ≠ OfferStatus.open_ := by
        rw [hstep]
        simp
      have hrec := @applyOrders_status_not_open _ qs' hns
      rw [applyOrders, List.foldl_cons, ← applyOrders]
      rw [hrec.1, hrec.2, hstep]
      refine ⟨by simp; omega, ?_, ?_⟩
      · simp
        omega
      · simp
        omega
    · have hstep := applyOrder_open_nocross hc
      have ho' : (applyOrder offer q).status = OfferStatus.open_ := by
        rw [hstep]
        exact hopen
      have hlt' : (applyOrder offer q).aggregated_qty <
          (applyOrder offer q).min_fulfillment_qty := by
        rw [hstep]
        simp
        omega
      have hrec := ih (applyOrder offer q) ho' hlt'
        (fun x hx => hpos x (List.mem_cons_of_mem q hx))
      rw [applyOrders, List.foldl_cons, ← applyOrders]
      rw [hstep] at hrec ⊢
      refine ⟨?_, ?_, ?_⟩
      · rw [hrec.1]
        simp
        omega
      · rw [hrec.2.1]
        simp
        omega
      · rw [hrec.2.2]
        simp
        omega

/-- Witness for C2: the spec §8 threshold scenario — an open offer at
aggregated_qty 40 with threshold 50 receiving orders of 5 then 10. -/
theorem applyOrders_threshold_once_witness :
    (applyOrders ⟨40, 50, OfferStatus.open_, demoSlabs⟩ [5, 10]).aggregated_qty =
        40 + ([5, 10] : List Int).sum ∧
      ((applyOrders ⟨40, 50, OfferStatus.open_, demoSlabs⟩ [5, 10]).status =
          OfferStatus.ready_to_pack ↔ (50 : Int) ≤ 40 + ([5, 10] : List Int).sum) ∧
      ((applyOrders ⟨40, 50, OfferStatus.open_, demoSlabs⟩ [5, 10]).status =
          OfferStatus.open_ ↔ 40 + ([5, 10] : List Int).sum < (50 : Int)) :=
  applyOrders_threshold_once ⟨40, 50, OfferStatus.open_, demoSlabs⟩ [5, 10]
    rfl (by decide) (by decide)

/-! ## C7 -/

/-- C7: an order placement with quantity ≤ 0 (zero or negative) is
rejected with `InvalidQuantity` — the service returns an error carrying no
updated offer, so no order is created and the offer's aggregated_qty and
status are untouched — and the client-side guard of `handleAddToOrder`
also blocks the API call for such quantities. -/
theorem invalid_quantity_rejected (offer : Offer) (q : Int) (hq : q ≤ 0) :
    placeOrder offer q = Except.error PlaceError.InvalidQuantity ∧
      handleAddToOrderProceeds (some q) = false := by
  constructor
  · unfold placeOrder
    rw [if_pos hq]
  · simp [handleAddToOrderProceeds]
    omega

/-- Witness for C7: quantity -5 (a spec §8 scenario) against the scenario
offer. -/
theorem invalid_quantity_rejected_witness :
    placeOrder scenarioOffer (-5) = Except.error PlaceError.InvalidQuantity ∧
      handleAddToOrderProceeds (some (-5)) = false :=
  invalid_quantity_rejected scenarioOffer (-5) (by decide)

/-! ## C6 -/

/-- C6: the unit price snapshotted by the order-placement service is
resolved at the *prospective* aggregated quantity (current aggregated_qty
plus the requested quantity): in the spec §8 scenario, an order of 40
against aggregated_qty 15 is priced at 80 (the 51+ band of
[(1,10,100),(11,50,90),(51,∞,80)]), total 3200, and the offer crosses its
threshold; while the client-side price preview of the offer modal computes
the price from the retailer's own quantity alone and shows 90 ≠ 80. -/
theorem placeOrder_prospective_price :
    (∀ (offer : Offer) (q : Int) (updated : Offer) (res : PlaceResult),
        placeOrder offer q = Except.ok (updated, res) →
        getCurrentPrice offer.slab_table (offer.aggregated_qty + q) =
          some res.unit_price) ∧
      placeOrder scenarioOffer 40 =
        Except.ok (⟨55, 50, OfferStatus.ready_to_pack, demoSlabs⟩,
          ⟨80, 3200, 55, OfferStatus.ready_to_pack⟩) ∧
      pricePreview demoSlabs 40 = some 90 ∧
      (90 : ℚ) ≠ 80 := by
  refine ⟨?_, ?_, by decide, by norm_num⟩
  · intro offer q updated res h
    simp only [placeOrder] at h
    split at h
    · cases h
    · split at h
      · cases h
      · cases hgp : getCurrentPrice offer.slab_table (offer.aggregated_qty + q) with
        | none => rw [hgp] at h; cases h
        | some p =>
          rw [hgp] at h
          injection h with h2
          injection h2 with ha hb
          rw [← hb]
  · norm_num [placeOrder, scenarioOffer, applyOrder, getCurrentPrice,
      findMatch, slabMatches, demoSlabs]

/-- Witness for C6's general conjunct, instantiated at the §8 scenario:
the snapshotted price is the lookup at 15 + 40 = 55, not at 40. -/
theorem placeOrder_prospective_price_witness :
    getCurrentPrice scenarioOffer.slab_table (scenarioOffer.aggregated_qty + 40) =
      some (80 : ℚ) :=
  placeOrder_prospective_price.1 scenarioOffer 40
    ⟨55, 50, OfferStatus.ready_to_pack, demoSlabs⟩
    ⟨80, 3200, 55, OfferStatus.ready_to_pack⟩
    placeOrder_prospective_price.2.1

/-! ## C8 -/

/-- C8: every status transition offered by the admin fulfillment screen
moves an offer exactly one step forward along the pipeline
ready_to_pack → picked_up → out_for_delivery → delivered: the target's
pipeline position is the source's plus one (never backward, never a skip),
and no button exists for `open` or `delivered` offers. -/
theorem fulfillment_buttons_strictly_forward (s s' : OfferStatus)
    (h : fulfillmentStatusButton s = some s') :
    pipelineIndex s' = pipelineIndex s + 1 ∧
      1 ≤ pipelineIndex s ∧ pipelineIndex s' ≤ 4 := by
  cases s <;> simp [fulfillmentStatusButton] at h <;>
    subst h <;> simp [pipelineIndex]

/-- Witness for C8 at the first pipeline step. -/
theorem fulfillment_buttons_strictly_forward_witness :
    pipelineIndex OfferStatus.picked_up =
        pipelineIndex OfferStatus.ready_to_pack + 1 ∧
      1 ≤ pipelineIndex OfferStatus.ready_to_pack ∧
      pipelineIndex OfferStatus.picked_up ≤ 4 :=
  fulfillment_buttons_strictly_forward OfferStatus.ready_to_pack
    OfferStatus.picked_up rfl

/-! ## C10 -/

theorem boundedChain_append_unbounded {lo : Int} {l : List QuantitySlab}
    {lastSlab : QuantitySlab} {m : Int} (hb : boundedChainFrom lo l = true)
    (hl : l.getLast? = some lastSlab) (hm : lastSlab.max_qty = some m)
    (p : ℚ) :
    contiguousFrom lo (l ++ [⟨m + 1, none, p⟩]) = true := by
  induction l generalizing lo with
  | nil => cases hl
  | cons a t ih =>
    cases hmax : a.max_qty with
    | none => simp [boundedChainFrom, hmax] at hb
    | some ma =>
      simp [boundedChainFrom, hmax] at hb
      obtain ⟨hmin, hloma, hb'⟩ := hb
      cases t with
      | nil =>
        simp at hl
        subst hl
        rw [hmax] at hm
        obtain rfl := Option.some.inj hm
        simp [contiguousFrom, hmax, hmin, hloma]
      | cons b t' =>
        rw [List.getLast?_cons_cons] at hl
        have hrec := ih hb' hl
        simp only [List.cons_append]
        simp only [List.cons_append] at hrec
        simp [contiguousFrom, hmax, hmin, hloma]
        exact hrec

theorem unbounded_mid_not_contiguous {l : List QuantitySlab}
    {lastSlab : QuantitySlab} (hl : l.getLast? = some lastSlab)
    (hm : lastSlab.max_qty = none) (x : QuantitySlab) (lo : Int) :
    contiguousFrom lo (l ++ [x]) = false := by
  induction l generalizing lo with
  | nil => cases hl
  | cons a t ih =>
    cases t with
    | nil =>
      simp at hl
      subst hl
      simp [contiguousFrom, hm]
    | cons b t' =>
      rw [List.getLast?_cons_cons] at hl
      cases hmax : a.max_qty with
      | none => simp [contiguousFrom, hmax]
      | some ma =>
        simp only [List.cons_append]
        have hrec := ih hl (ma + 1)
        simp only [List.cons_append] at hrec
        simp [contiguousFrom, hmax, hrec]

/-- C10 counterexample: the claim says that whenever the last slab's
`max_qty` is non-null, `addSlab` appends `min_qty = max_qty + 1`. But JS
`lastSlab.max_qty || lastSlab.min_qty` treats the non-null `max_qty` 0 as
falsy: on [(1, max 0, 100)] the appended slab has `min_qty` 2
(= min_qty + 1), not 1 (= max_qty + 1). -/
theorem addSlab_counterexample :
    zeroMaxSlabs.getLast? = some ⟨1, some 0, 100⟩ ∧
      addSlab zeroMaxSlabs = some [⟨1, some 0, 100⟩, ⟨2, none, 90⟩] ∧
      (2 : Int) ≠ 0 + 1 := by
  refine ⟨rfl, ?_, by decide⟩
  norm_num [addSlab, zeroMaxSlabs]

/-- C10 (amended): for every non-empty slab list whose last slab has a
non-null and *nonzero* `max_qty = m`, `addSlab` appends
`{min_qty := m + 1, max_qty := null, price_per_unit := last price − 10}`,
and appending to a contiguous bounded table (the editor's under-construction
shape) yields a well-formed table; if instead the last slab's `max_qty` is
null, the appended slab starts at `last.min_qty + 1`, which overlaps the
existing unbounded slab (both contain that quantity), and the result is
contiguous from no starting bound — well-formedness is broken. -/
theorem addSlab_spec (slabs : List QuantitySlab) (lastSlab : QuantitySlab)
    (hlast : slabs.getLast? = some lastSlab) :
    (∀ m : Int, lastSlab.max_qty = some m → m ≠ 0 →
      addSlab slabs =
        some (slabs ++ [⟨m + 1, none, lastSlab.price_per_unit - 10⟩]) ∧
      (boundedChainFrom 1 slabs = true →
        WellFormed (slabs ++ [⟨m + 1, none, lastSlab.price_per_unit - 10⟩]) =
          true)) ∧
    (lastSlab.max_qty = none →
      addSlab slabs =
        some (slabs ++
          [⟨lastSlab.min_qty + 1, none, lastSlab.price_per_unit - 10⟩]) ∧
      slabMatches lastSlab (lastSlab.min_qty + 1) = true ∧
      slabMatches ⟨lastSlab.min_qty + 1, none, lastSlab.price_per_unit - 10⟩
        (lastSlab.min_qty + 1) = true ∧
      ∀ lo : Int, contiguousFrom lo
        (slabs ++
          [⟨lastSlab.min_qty + 1, none, lastSlab.price_per_unit - 10⟩]) =
        false) := by
  constructor
  · intro m hm hm0
    constructor
    · simp [addSlab, hlast, hm, hm0]
    · intro hb
      exact boundedChain_append_unbounded hb hlast hm _
  · intro hm
    refine ⟨by simp [addSlab, hlast, hm], ?_, ?_, ?_⟩
    · simp [slabMatches, hm]
    · simp [slabMatches]
    · exact unbounded_mid_not_contiguous hlast hm _

/-- Witness for C10 at the one-slab editor table [(1,10,100)]. -/
theorem addSlab_spec_witness :
    (∀ m : Int, (⟨1, some 10, 100⟩ : QuantitySlab).max_qty = some m → m ≠ 0 →
      addSlab [⟨1, some 10, 100⟩] =
        some ([⟨1, some 10, 100⟩] ++
          [⟨m + 1, none, (100 : ℚ) - 10⟩]) ∧
      (boundedChainFrom 1 [⟨1, some 10, 100⟩] = true →
        WellFormed ([⟨1, some 10, 100⟩] ++
          [⟨m + 1, none, (100 : ℚ) - 10⟩]) = true)) ∧
    ((⟨1, some 10, 100⟩ : QuantitySlab).max_qty = none →
      addSlab [⟨1, some 10, 100⟩] =
        some ([⟨1, some 10, 100⟩] ++ [⟨(1 : Int) + 1, none, (100 : ℚ) - 10⟩]) ∧
      slabMatches ⟨1, some 10, 100⟩ ((1 : Int) + 1) = true ∧
      slabMatches ⟨(1 : Int) + 1, none, (100 : ℚ) - 10⟩ ((1 : Int) + 1) = true ∧
      ∀ lo : Int, contiguousFrom lo
        ([⟨1, some 10, 100⟩] ++ [⟨(1 : Int) + 1, none, (100 : ℚ) - 10⟩]) =
        false) :=
  addSlab_spec [⟨1, some 10, 100⟩] ⟨1, some 10, 100⟩ rfl

end BulkOrder
